import Mathlib

/-!
Verification development for the DashGit unification and classification
engine: a shallow embedding of the entity model (src/types.ts), the
classifier (src/App.tsx), the GitLab adapter (src/adapters/gitlab.ts) and
the two GitHub mapper drafts (the most recent draft and the one in
src/adapters/github.ts), with theorems about the properties the design
document states.

Modelling conventions.  JavaScript numbers that hold counts are modelled as
Nat; timestamps (Date.getTime values) as Int.  Dynamic fields read through
optional chaining or defaulted with a falsy-or are modelled as Option;
fields the code reads without a guard are plain fields, except where a
claim concerns the unguarded read, in which case the mapper returns Except
and the unguarded read of a missing value is an error.  The JS runtime
pieces the code relies on (Array.prototype.sort with a comparator, Set and
Map insertion-order semantics, string toUpperCase / toLowerCase /
includes / startsWith on ASCII data) are embedded as the executable
functions below.
-/

/-! ## JS runtime helpers -/

/-- ASCII rendering of String.prototype.toUpperCase. -/
def asciiUpper (s : String) : String := String.mk (s.data.map Char.toUpper)

/-- ASCII rendering of String.prototype.toLowerCase. -/
def asciiLower (s : String) : String := String.mk (s.data.map Char.toLower)

/-- String.prototype.includes. -/
def strIncludes (s pat : String) : Bool :=
  (List.range (s.data.length + 1)).any (fun i => pat.data.isPrefixOf (s.data.drop i))

/-- String.prototype.startsWith. -/
def strStartsWith (s pre : String) : Bool := pre.data.isPrefixOf s.data

/-- String.prototype.endsWith. -/
def strEndsWith (s suf : String) : Bool := suf.data.reverse.isPrefixOf s.data.reverse

/-- The JS idiom `s || d` on strings: the empty string is falsy. -/
def jsOrStr (s d : String) : String := if s == "" then d else s

/-- One step of an insertion sort: `x` is placed after every element `y`
with `le y x`, matching the stable order Array.prototype.sort produces for
a comparator whose non-negative results are exactly `le y x`. -/
def jsInsert (le : α → α → Bool) : List α → α → List α
  | [], x => [x]
  | y :: ys, x => if le y x then y :: jsInsert le ys x else x :: y :: ys

/-- Array.prototype.sort with comparator semantics `le a b` = "a may come
before b" (stable, total-preorder comparator). -/
def jsSortBy (le : α → α → Bool) (l : List α) : List α := l.foldl (jsInsert le) []

/-- Set.prototype.add: keeps the first occurrence, in insertion order. -/
def jsSetAdd (l : List String) (x : String) : List String := if x ∈ l then l else l ++ [x]

/-- A JS Set built by adding the elements of a list in order. -/
def jsSetOfList (xs : List String) : List String := xs.foldl jsSetAdd []

/-- Map.prototype.set: replaces the value in place if the key exists
(keeping the original key position), otherwise appends. -/
def jsMapSet (m : List (String × α)) (k : String) (v : α) : List (String × α) :=
  if m.any (fun p => p.1 == k) then m.map (fun p => if p.1 == k then (k, v) else p)
  else m ++ [(k, v)]

/-! ## Entity model (src/types.ts) -/

inductive ReviewState where
  | approved
  | changes_requested
  | pending
  | commented
deriving DecidableEq, Repr

inductive PipelineStatus where
  | success
  | failed
  | warning
  | pending
deriving DecidableEq, Repr

inductive RepoSource where
  | github
  | gitlab
deriving DecidableEq, Repr

structure User where
  name : String
  avatarUrl : String
  username : String
deriving DecidableEq, Repr

structure Reviewer extends User where
  status : ReviewState
deriving DecidableEq, Repr

structure CommentStats where
  resolved : Nat
  total : Nat
deriving DecidableEq, Repr

structure Approvals where
  given : Nat
  required : Nat
deriving DecidableEq, Repr

structure ChangeStats where
  files : Nat
  additions : Nat
  deletions : Nat
deriving DecidableEq, Repr

structure UnifiedPullRequest where
  id : String
  uniqueKey : String
  title : String
  url : String
  source : RepoSource
  repoName : String
  updatedAt : Int
  author : User
  reviewers : List Reviewer
  pipelineStatus : PipelineStatus
  commentStats : CommentStats
  approvals : Approvals
  changes : ChangeStats
  isAuthor : Bool
  isReviewer : Bool
  myReviewState : ReviewState
  overallReviewState : ReviewState
deriving DecidableEq, Repr

/-! ## Classifier (src/App.tsx, the sections useMemo) -/

inductive Bucket where
  | returned
  | reviewRequested
  | yourPRs
  | waitingForApprovals
  | approvedByYou
  | approvedByOthers
deriving DecidableEq, Repr

/-- The section titles App.tsx renders for the six buckets. -/
def bucketTitle : Bucket → String
  | .returned => "Returned to you"
  | .reviewRequested => "Review requested"
  | .yourPRs => "Your merge requests"
  | .waitingForApprovals => "Waiting for approvals"
  | .approvedByYou => "Approved by you"
  | .approvedByOthers => "Approved by others"

/-- The body of the forEach in the sections useMemo (App.tsx): the guards
in their source order, each ended by an early return, so the first
matching guard decides the bucket and a non-matching item is dropped. -/
def categorize (pr : UnifiedPullRequest) : Option Bucket :=
  if pr.isAuthor && (pr.overallReviewState == .changes_requested || pr.pipelineStatus == .failed) then
    some .returned
  else if pr.isReviewer && pr.myReviewState == .pending then
    some .reviewRequested
  else if pr.isReviewer && pr.myReviewState == .approved then
    some .approvedByYou
  else if pr.isAuthor && pr.overallReviewState == .approved then
    some .approvedByOthers
  else if pr.isAuthor && decide (pr.approvals.given < pr.approvals.required) then
    some .waitingForApprovals
  else if pr.isAuthor then
    some .yourPRs
  else
    none

structure Sections where
  returned : List UnifiedPullRequest
  reviewRequested : List UnifiedPullRequest
  yourPRs : List UnifiedPullRequest
  waitingForApprovals : List UnifiedPullRequest
  approvedByYou : List UnifiedPullRequest
  approvedByOthers : List UnifiedPullRequest
deriving DecidableEq, Repr

def Sections.empty : Sections := ⟨[], [], [], [], [], []⟩

def Sections.bucketList (s : Sections) : Bucket → List UnifiedPullRequest
  | .returned => s.returned
  | .reviewRequested => s.reviewRequested
  | .yourPRs => s.yourPRs
  | .waitingForApprovals => s.waitingForApprovals
  | .approvedByYou => s.approvedByYou
  | .approvedByOthers => s.approvedByOthers

/-- Array.prototype.push into the list the matched guard names. -/
def Sections.push (s : Sections) (b : Bucket) (pr : UnifiedPullRequest) : Sections :=
  match b with
  | .returned => { s with returned := s.returned ++ [pr] }
  | .reviewRequested => { s with reviewRequested := s.reviewRequested ++ [pr] }
  | .yourPRs => { s with yourPRs := s.yourPRs ++ [pr] }
  | .waitingForApprovals => { s with waitingForApprovals := s.waitingForApprovals ++ [pr] }
  | .approvedByYou => { s with approvedByYou := s.approvedByYou ++ [pr] }
  | .approvedByOthers => { s with approvedByOthers := s.approvedByOthers ++ [pr] }

/-- One iteration of the forEach in the sections useMemo. -/
def sectionsStep (s : Sections) (pr : UnifiedPullRequest) : Sections :=
  match categorize pr with
  | some b => s.push b pr
  | none => s

/-- The sections useMemo: a forEach over the aggregated data, each item
pushed into the bucket its first matching guard names, or dropped. -/
def sections (data : List UnifiedPullRequest) : Sections :=
  data.foldl sectionsStep Sections.empty

/-- The classifier table of the design document, section 4.4, as written:
seven buckets evaluated top to bottom, identified here by the bucket names
of the table.  This definition follows the words of the document, not the
code; it exists to be compared with categorize. -/
def specBucketName (pr : UnifiedPullRequest) : Option String :=
  if pr.isAuthor && (pr.overallReviewState == .changes_requested || pr.pipelineStatus == .failed) then
    some "Returned to you"
  else if pr.isAuthor && pr.overallReviewState == .approved then
    some "Approved by others"
  else if pr.isAuthor && decide (pr.approvals.given < pr.approvals.required) then
    some "Waiting for approvals"
  else if pr.isAuthor then
    some "Your merge requests"
  else if pr.isReviewer && pr.myReviewState == .approved then
    some "Approved by you"
  else if pr.isReviewer && (pr.myReviewState == .changes_requested || pr.myReviewState == .commented) then
    some "Waiting for the author"
  else if pr.isReviewer && pr.myReviewState == .pending then
    some "Review requested"
  else
    none

/-- The priority rule table the code actually implements (the amended form
of the section 4.4 table): six rules, first match wins, no
Waiting-for-the-author bucket. -/
def classifierRules : List (Bucket × (UnifiedPullRequest → Bool)) :=
  [ (.returned, fun pr => pr.isAuthor && (pr.overallReviewState == .changes_requested || pr.pipelineStatus == .failed)),
    (.reviewRequested, fun pr => pr.isReviewer && pr.myReviewState == .pending),
    (.approvedByYou, fun pr => pr.isReviewer && pr.myReviewState == .approved),
    (.approvedByOthers, fun pr => pr.isAuthor && pr.overallReviewState == .approved),
    (.waitingForApprovals, fun pr => pr.isAuthor && decide (pr.approvals.given < pr.approvals.required)),
    (.yourPRs, fun pr => pr.isAuthor) ]

/-- First bucket of the rule table whose condition holds. -/
def firstMatchingRule (pr : UnifiedPullRequest) : Option Bucket :=
  classifierRules.findSome? (fun r => if r.2 pr then some r.1 else none)

/-! ## GitLab adapter (src/adapters/gitlab.ts) -/

structure GlUser where
  username : String
  name : String
  avatarUrl : Option String
deriving DecidableEq, Repr

/-- One node of mr.reviewers.nodes; reviewState is
mergeRequestInteraction.reviewState read through optional chaining. -/
structure GlReviewerNode where
  username : String
  name : String
  avatarUrl : Option String
  reviewState : Option String
deriving DecidableEq, Repr

structure GlPipeline where
  status : Option String
  detailedLabel : Option String
deriving DecidableEq, Repr

structure GlDiscussion where
  resolvable : Bool
  resolved : Bool
deriving DecidableEq, Repr

structure GlDiffStats where
  fileCount : Nat
  additions : Nat
  deletions : Nat
deriving DecidableEq, Repr

/-- A raw GitLab merge request as the adapter reads it.  iid is a string
in the GraphQL schema.  approvedBy holds the usernames of
approvedBy.nodes. -/
structure GlMR where
  iid : String
  title : String
  webUrl : String
  updatedAt : Int
  projectName : String
  projectPath : String
  author : Option GlUser
  reviewers : Option (List GlReviewerNode)
  headPipeline : Option GlPipeline
  approvedBy : Option (List String)
  approvalsRequired : Option Nat
  diffStatsSummary : Option GlDiffStats
  userNotesCount : Option Nat
  discussions : Option (List GlDiscussion)
deriving DecidableEq, Repr

/-- host.replace of one trailing slash. -/
def cleanHostOf (host : String) : String :=
  if strEndsWith host "/" then host.dropRight 1 else host

/-- resolveAvatar of the GitLab mapper: falsy url gives the empty string,
an absolute url is kept, a relative one is resolved against the host. -/
def resolveAvatar (baseUrl : String) (url : Option String) : String :=
  match url with
  | none => ""
  | some u =>
    if u == "" then ""
    else if strStartsWith u "http" then u
    else baseUrl ++ (if strStartsWith u "/" then "" else "/") ++ u

/-- mapPipelineStatus of gitlab.ts: the detailed label wins when it
signals a warning, then the raw status is matched. -/
def mapPipelineStatus (status detailedLabel : Option String) : PipelineStatus :=
  let label := asciiLower (detailedLabel.getD "")
  let s := asciiLower (status.getD "")
  if label != "" && (strIncludes label "warn" || strIncludes label "with warnings" || strIncludes label "warning" || strIncludes label "warnings") then .warning
  else if s != "" && (strIncludes s "warn" || strIncludes s "with-warnings" || strIncludes s "with_warnings") then .warning
  else if s == "success" || s == "passed" then .success
  else if s == "failed" || s == "failure" then .failed
  else if s == "running" || s == "pending" || s == "created" || s == "manual" then .pending
  else .pending

/-- The per-reviewer status resolution of the GitLab mapper: the explicit
interaction state, upgraded to approved when still pending but the user is
in the approvers list. -/
def glReviewerStatus (approvers : List String) (r : GlReviewerNode) : ReviewState :=
  let status0 : ReviewState :=
    if r.reviewState == some "APPROVED" then .approved
    else if r.reviewState == some "REQUESTED_CHANGES" then .changes_requested
    else if r.reviewState == some "REVIEWED" then .commented
    else .pending
  if status0 == .pending && approvers.contains r.username then .approved else status0

/-- mapGitlabToUnified of gitlab.ts, line for line. -/
def mapGitlabToUnified (mr : GlMR) (currentUsername : String) (baseUrl : String) : UnifiedPullRequest :=
  let approvers := jsSetOfList (mr.approvedBy.getD [])
  let rawReviewers := mr.reviewers.getD []
  let reviewers : List Reviewer := rawReviewers.map (fun r =>
    { name := r.name
      username := r.username
      avatarUrl := resolveAvatar baseUrl r.avatarUrl
      status := glReviewerStatus approvers r })
  let myReviewerEntry := reviewers.find? (fun r => r.username == currentUsername)
  let myState0 : ReviewState :=
    match myReviewerEntry with
    | some r => r.status
    | none => .pending
  let myReviewState :=
    if myState0 == .pending && approvers.contains currentUsername then .approved else myState0
  let givenApprovals := approvers.length
  let requiredApprovals := mr.approvalsRequired.getD 0
  let hasRequestedChanges := reviewers.any (fun r => r.status == .changes_requested)
  let overallReviewState : ReviewState :=
    if hasRequestedChanges then .changes_requested
    else if decide (0 < requiredApprovals) && decide (requiredApprovals ≤ givenApprovals) then .approved
    else .pending
  let counts := (mr.discussions.getD []).foldl
    (fun (acc : Nat × Nat) d =>
      if d.resolvable then (acc.1 + (if d.resolved then 1 else 0), acc.2 + 1) else acc)
    (0, 0)
  { id := mr.iid
    uniqueKey := mr.projectPath ++ "#" ++ mr.iid
    title := mr.title
    url := mr.webUrl
    source := .gitlab
    repoName := mr.projectName
    updatedAt := mr.updatedAt
    author :=
      { name := jsOrStr (match mr.author with | some a => a.name | none => "") "Unknown"
        username := jsOrStr (match mr.author with | some a => a.username | none => "") "unknown"
        avatarUrl := resolveAvatar baseUrl (mr.author.bind (fun a => a.avatarUrl)) }
    reviewers := reviewers
    pipelineStatus := mapPipelineStatus (mr.headPipeline.bind (fun p => p.status)) (mr.headPipeline.bind (fun p => p.detailedLabel))
    commentStats := { total := counts.2, resolved := counts.1 }
    approvals := { given := givenApprovals, required := requiredApprovals }
    changes :=
      { files := (mr.diffStatsSummary.map (fun d => d.fileCount)).getD 0
        additions := (mr.diffStatsSummary.map (fun d => d.additions)).getD 0
        deletions := (mr.diffStatsSummary.map (fun d => d.deletions)).getD 0 }
    isAuthor := match mr.author with | some a => a.username == currentUsername | none => false
    isReviewer := reviewers.any (fun r => r.username == currentUsername)
    myReviewState := myReviewState
    overallReviewState := overallReviewState }

/-- The currentUser object of the GitLab GraphQL payload: the three result
sets, each list read through optional chaining. -/
structure GlCurrentUser where
  username : String
  authoredNodes : Option (List GlMR)
  assignedNodes : Option (List GlMR)
  reviewRequestedNodes : Option (List GlMR)
deriving DecidableEq, Repr

/-- What the adapter observes of the HTTP exchange: either the fetch or
response.json call threw, or a parsed body with an optional errors array
and an optional data.currentUser (the code never reads the HTTP status
code). -/
inductive GitlabHttpOutcome where
  | thrown
  | payload (errors : Option (List String)) (data : Option GlCurrentUser)
deriving DecidableEq, Repr

/-- The deduplication key, identical to the uniqueKey of the mapped
entity. -/
def glKey (mr : GlMR) : String := mr.projectPath ++ "#" ++ mr.iid

/-- addList of fetchGitlabMRs: a guard for a missing list, then an
unconditional Map.set per element. -/
def addList (m : List (String × GlMR)) (list : Option (List GlMR)) : List (String × GlMR) :=
  match list with
  | none => m
  | some l => l.foldl (fun m mr => jsMapSet m (glKey mr) mr) m

/-- The three scanned lists in scan order: authored, assigned,
review-requested. -/
def glScan (cu : GlCurrentUser) : List GlMR :=
  cu.authoredNodes.getD [] ++ cu.assignedNodes.getD [] ++ cu.reviewRequestedNodes.getD []

/-- The dedup map the adapter builds from the three lists. -/
def glMrMap (cu : GlCurrentUser) : List (String × GlMR) :=
  addList (addList (addList [] cu.authoredNodes) cu.assignedNodes) cu.reviewRequestedNodes

/-- The successful tail of fetchGitlabMRs: dedup map values mapped to
unified entities under the authenticated username. -/
def gitlabProcess (cu : GlCurrentUser) (cleanHost : String) : List UnifiedPullRequest :=
  ((glMrMap cu).map (fun p => p.2)).map (fun mr => mapGitlabToUnified mr cu.username cleanHost)

/-- The try block of fetchGitlabMRs. -/
def gitlabTryBody (cleanHost : String) (resp : GitlabHttpOutcome) : Except String (List UnifiedPullRequest) :=
  match resp with
  | .thrown => .error "GitLab Fetch Error"
  | .payload (some errs) _ => .error (errs.head?.getD "TypeError")
  | .payload none none => .ok []
  | .payload none (some cu) => .ok (gitlabProcess cu cleanHost)

/-- fetchGitlabMRs: the try block with the catch that swallows every
failure into an empty list. -/
def fetchGitlabMRs (host : String) (resp : GitlabHttpOutcome) : List UnifiedPullRequest :=
  match gitlabTryBody (cleanHostOf host) resp with
  | .ok l => l
  | .error _ => []

/-- The failure cases of the exchange: a thrown fetch or parse, or a
GraphQL errors payload. -/
def gitlabFetchFailed (resp : GitlabHttpOutcome) : Bool :=
  match resp with
  | .thrown => true
  | .payload (some _) _ => true
  | .payload none _ => false

/-! ## GitHub adapter, most recent mapper draft -/

structure GhUser where
  login : String
  avatarUrl : Option String
deriving DecidableEq, Repr

structure GhReviewNode where
  author : Option GhUser
  state : Option String
  submittedAt : Int
deriving DecidableEq, Repr

structure GhCommentNode where
  author : Option GhUser
deriving DecidableEq, Repr

/-- One node of pr.commits.nodes; rollup is
commit.statusCheckRollup.state, read through optional chaining. -/
structure GhCommitNode where
  rollup : Option String
deriving DecidableEq, Repr

/-- A raw GitHub pull request node.  reviewRequests holds the
requestedReviewer of each node (null for a non-User reviewer);
reviews and comments hold the nodes lists read through optional
chaining.  The author can be null (a deleted user) and is read without a
guard by both mapper drafts. -/
structure GithubPR where
  number : Nat
  title : String
  url : String
  updatedAt : Int
  repoName : String
  repoOwner : String
  author : Option GhUser
  reviewRequests : Option (List (Option GhUser))
  reviews : Option (List GhReviewNode)
  comments : Option (List GhCommentNode)
  commits : List GhCommitNode
  totalCommentsCount : Nat
  changedFiles : Nat
  additions : Nat
  deletions : Nat
  reviewDecision : Option String
deriving DecidableEq, Repr

/-- requestedReviewers: the defaulted nodes list with null reviewers
filtered out (the filter Boolean step). -/
def ghRequested (pr : GithubPR) : List GhUser := (pr.reviewRequests.getD []).filterMap id

/-- reviewNodes after the in-place sort by submittedAt (ascending,
stable). -/
def ghSortedReviews (pr : GithubPR) : List GhReviewNode :=
  jsSortBy (fun a b => decide (a.submittedAt ≤ b.submittedAt)) (pr.reviews.getD [])

def ghCommentNodes (pr : GithubPR) : List GhCommentNode := (pr.comments.getD [])

/-- One step of the latestStateByLogin replay, seen from one login: an
APPROVED or CHANGES_REQUESTED submission by that login overwrites the
entry, a DISMISSED one clears it to null, anything else leaves it. -/
def bindingStep (login : String) (acc : Option (Option String)) (r : GhReviewNode) : Option (Option String) :=
  match r.author with
  | none => acc
  | some a =>
    if a.login == "" then acc
    else if a.login == login then
      let s := asciiUpper (r.state.getD "")
      if s == "APPROVED" || s == "CHANGES_REQUESTED" then some (some s)
      else if s == "DISMISSED" then some none
      else acc
    else acc

/-- The final latestStateByLogin entry for a login: none when the map has
no entry, some none when a dismissal cleared it. -/
def ghLatestBinding (pr : GithubPR) (login : String) : Option (Option String) :=
  (ghSortedReviews pr).foldl (bindingStep login) none

/-- commentedLogins membership: a COMMENTED review or a standalone comment
by the login (empty logins are never added). -/
def ghCommented (pr : GithubPR) (login : String) : Bool :=
  (ghSortedReviews pr).any (fun r =>
    match r.author with
    | some a => a.login != "" && a.login == login && asciiUpper (r.state.getD "") == "COMMENTED"
    | none => false)
  || (ghCommentNodes pr).any (fun c =>
    match c.author with
    | some a => a.login != "" && a.login == login
    | none => false)

def ghApproverB (pr : GithubPR) (login : String) : Bool :=
  ghLatestBinding pr login == some (some "APPROVED")

def ghChangesRequestedB (pr : GithubPR) (login : String) : Bool :=
  ghLatestBinding pr login == some (some "CHANGES_REQUESTED")

/-- The insertion-ordered key list of latestStateByLogin: logins whose
reviews carried a binding-relevant state, first occurrence kept. -/
def ghBindingLogins (pr : GithubPR) : List String :=
  jsSetOfList ((ghSortedReviews pr).filterMap (fun r =>
    match r.author with
    | some a =>
      if a.login == "" then none
      else
        let s := asciiUpper (r.state.getD "")
        if s == "APPROVED" || s == "CHANGES_REQUESTED" || s == "DISMISSED" then some a.login
        else none
    | none => none))

/-- approvers.size: distinct logins whose final binding state is
APPROVED. -/
def ghApproversSize (pr : GithubPR) : Nat :=
  ((ghBindingLogins pr).filter (fun l => ghApproverB pr l)).length

/-- changesRequested.size. -/
def ghChangesRequestedSize (pr : GithubPR) : Nat :=
  ((ghBindingLogins pr).filter (fun l => ghChangesRequestedB pr l)).length

/-- The review logins added to allReviewerUsernames from reviewNodes
(in sorted order, as the code sorts in place before building the set). -/
def ghReviewLogins (pr : GithubPR) : List String :=
  (ghSortedReviews pr).filterMap (fun r =>
    match r.author with
    | some a => if a.login == "" then none else some a.login
    | none => none)

/-- The comment logins added to allReviewerUsernames. -/
def ghCommentLogins (pr : GithubPR) : List String :=
  (ghCommentNodes pr).filterMap (fun c =>
    match c.author with
    | some a => if a.login == "" then none else some a.login
    | none => none)

/-- allReviewerUsernames: requested, then review authors, then comment
authors, first occurrence kept. -/
def ghAllReviewerLogins (pr : GithubPR) : List String :=
  jsSetOfList
    ((ghRequested pr).filterMap (fun r => if r.login == "" then none else some r.login)
      ++ ghReviewLogins pr ++ ghCommentLogins pr)

/-- The reviewer entry built for one login of allReviewerUsernames: the
avatar fallback chain and the per-reviewer status precedence of the most
recent GitHub mapper draft. -/
def ghMkReviewer (pr : GithubPR) (login : String) : Reviewer :=
  let a1 : String :=
    match (ghRequested pr).find? (fun x => x.login == login) with
    | some u => (u.avatarUrl.getD "")
    | none => ""
  let a2 : String :=
    match (ghSortedReviews pr).find? (fun r => (r.author.map (fun a => a.login)) == some login) with
    | some r => ((r.author.bind (fun a => a.avatarUrl)).getD "")
    | none => ""
  let avatar := jsOrStr (jsOrStr a1 a2) ("https://github.com/" ++ login ++ ".png")
  let isRequested := (ghRequested pr).any (fun req => req.login == login)
  let status : ReviewState :=
    if ghApproverB pr login then .approved
    else if ghChangesRequestedB pr login then
      if isRequested then .pending else .changes_requested
    else if isRequested then .pending
    else if ghCommented pr login then .commented
    else .pending
  { name := login, username := login, avatarUrl := avatar, status := status }

/-- mapGithubToUnified of the most recent GitHub mapper draft.  The only
unguarded read of an optional value is pr.author; a payload with a null
author makes the mapper throw, modelled as an error. -/
def mapGithubToUnified (pr : GithubPR) (currentUsername : String) : Except String UnifiedPullRequest :=
  match pr.author with
  | none => .error "TypeError: cannot read login of null"
  | some prAuthor =>
    let logins := ghAllReviewerLogins pr
    let reviewers := logins.map (ghMkReviewer pr)
    let isReviewer := logins.contains currentUsername
    let s := asciiUpper ((((pr.commits.head?).bind (fun c => c.rollup))).getD "")
    let pipelineStatus : PipelineStatus :=
      if strIncludes s "WARN" || s == "NEUTRAL" then .warning
      else if s == "SUCCESS" then .success
      else if s == "FAILURE" || s == "ERROR" then .failed
      else if s == "PENDING" || s == "RUNNING" then .pending
      else .pending
    let amIRequested := (ghRequested pr).any (fun r => r.login == currentUsername)
    let myReviewState : ReviewState :=
      if amIRequested then .pending
      else if ghLatestBinding pr currentUsername == some (some "APPROVED") then .approved
      else if ghLatestBinding pr currentUsername == some (some "CHANGES_REQUESTED") then .changes_requested
      else if ghCommented pr currentUsername then .commented
      else .pending
    let overallReviewState : ReviewState :=
      if pr.reviewDecision == some "APPROVED" then .approved
      else if pr.reviewDecision == some "CHANGES_REQUESTED" then .changes_requested
      else if decide (0 < ghChangesRequestedSize pr) then .changes_requested
      else if decide (0 < ghApproversSize pr) && pr.reviewDecision == some "APPROVED" then .approved
      else .pending
    .ok
      { id := toString pr.number
        uniqueKey := pr.repoOwner ++ "/" ++ pr.repoName ++ "#" ++ toString pr.number
        title := pr.title
        url := pr.url
        source := .github
        repoName := pr.repoName
        updatedAt := pr.updatedAt
        author :=
          { name := prAuthor.login
            username := prAuthor.login
            avatarUrl := prAuthor.avatarUrl.getD "" }
        reviewers := reviewers
        pipelineStatus := pipelineStatus
        commentStats := { total := pr.totalCommentsCount, resolved := 0 }
        approvals := { given := ghApproversSize pr, required := 1 }
        changes := { files := pr.changedFiles, additions := pr.additions, deletions := pr.deletions }
        isAuthor := prAuthor.login == currentUsername
        isReviewer := isReviewer
        myReviewState := myReviewState
        overallReviewState := overallReviewState }

/-- The uniqueKey the most recent GitHub mapper computes from a raw
node. -/
def ghUniqueKey (pr : GithubPR) : String :=
  pr.repoOwner ++ "/" ++ pr.repoName ++ "#" ++ toString pr.number

/-- The mapping step of fetchGithubPRs over the search nodes: every node
mapped in order, the first thrown error propagated, no deduplication. -/
def githubProcess : List GithubPR → String → Except String (List UnifiedPullRequest)
  | [], _ => .ok []
  | pr :: rest, username =>
    match mapGithubToUnified pr username with
    | .error msg => .error msg
    | .ok e =>
      match githubProcess rest username with
      | .error msg => .error msg
      | .ok l => .ok (e :: l)

/-- The status shown for one login in the reviewers list of a mapped
entity, none when the mapping fails or the login is not listed. -/
def ghReviewerStatus (pr : GithubPR) (u login : String) : Option ReviewState :=
  match mapGithubToUnified pr u with
  | .ok upr => (upr.reviewers.find? (fun r => r.username == login)).map (fun r => r.status)
  | .error _ => none

/-! ## GitHub adapter, src/adapters/github.ts draft (the one App.tsx
imports).  Its output matches the earlier types draft: no uniqueKey and
plain users as reviewers. -/

namespace GithubV1

structure UnifiedPullRequest where
  id : String
  title : String
  url : String
  source : RepoSource
  repoName : String
  updatedAt : Int
  author : User
  reviewers : List User
  pipelineStatus : PipelineStatus
  commentStats : CommentStats
  approvals : Approvals
  changes : ChangeStats
  isAuthor : Bool
  isReviewer : Bool
  myReviewState : ReviewState
  overallReviewState : ReviewState
deriving DecidableEq, Repr

/-- One forEach step of the reviewer-map construction in
src/adapters/github.ts: a candidate is added only when it is non-null,
has a truthy login, and the login differs from the author login. -/
def reviewerMapStep (authorLogin : String) (m : List (String × User)) (r : Option GhUser) : List (String × User) :=
  match r with
  | some u =>
    if u.login != "" && u.login != authorLogin then
      jsMapSet m u.login
        { name := u.login
          username := u.login
          avatarUrl := jsOrStr (u.avatarUrl.getD "") ("https://github.com/" ++ u.login ++ ".png") }
    else m
  | none => m

/-- mapGithubToUnified of src/adapters/github.ts: reviewRequests.nodes and
reviews.nodes are read without a guard (missing lists throw, modelled as
errors), the author is excluded from the reviewer map, and the review
lookup for myReviewState takes the first review of the current user. -/
def mapGithubToUnified (pr : GithubPR) (currentUsername : String) : Except String GithubV1.UnifiedPullRequest :=
  match pr.author with
  | none => .error "TypeError: cannot read login of null"
  | some prAuthor =>
    match pr.reviewRequests, pr.reviews with
    | some reqNodes, some revNodes =>
      let allCandidates : List (Option GhUser) := reqNodes ++ revNodes.map (fun n => n.author)
      let m : List (String × User) := allCandidates.foldl (reviewerMapStep prAuthor.login) []
      let reviewers := m.map (fun p => p.2)
      let isReviewer := m.any (fun p => p.1 == currentUsername)
      let status := (pr.commits.head?).bind (fun c => c.rollup)
      let pipelineStatus : PipelineStatus :=
        if status == some "SUCCESS" then .success
        else if status == some "FAILURE" || status == some "ERROR" then .failed
        else .pending
      let myReview := revNodes.find? (fun r => (r.author.map (fun a => a.login)) == some currentUsername)
      let myReviewState : ReviewState :=
        match myReview with
        | some r =>
          if r.state == some "APPROVED" then .approved
          else if r.state == some "CHANGES_REQUESTED" then .changes_requested
          else if r.state == some "COMMENTED" then .commented
          else .pending
        | none => .pending
      let overallReviewState : ReviewState :=
        if pr.reviewDecision == some "CHANGES_REQUESTED" then .changes_requested
        else if pr.reviewDecision == some "APPROVED" then .approved
        else .pending
      .ok
        { id := toString pr.number
          title := pr.title
          url := pr.url
          source := .github
          repoName := pr.repoName
          updatedAt := pr.updatedAt
          author :=
            { name := prAuthor.login
              username := prAuthor.login
              avatarUrl := prAuthor.avatarUrl.getD "" }
          reviewers := reviewers
          pipelineStatus := pipelineStatus
          commentStats := { total := pr.totalCommentsCount, resolved := 0 }
          approvals := { given := if pr.reviewDecision == some "APPROVED" then 1 else 0, required := 1 }
          changes := { files := pr.changedFiles, additions := pr.additions, deletions := pr.deletions }
          isAuthor := prAuthor.login == currentUsername
          isReviewer := isReviewer
          myReviewState := myReviewState
          overallReviewState := overallReviewState }
    | _, _ => .error "TypeError: cannot read nodes of undefined"

end GithubV1

/-! ## Aggregator (fetchData of App.tsx) -/

/-- The comparator of results.flat().sort: b.updatedAt minus a.updatedAt,
so a may come before b exactly when its timestamp is at least as
large. -/
def sortByUpdatedDesc (l : List UnifiedPullRequest) : List UnifiedPullRequest :=
  jsSortBy (fun a b => decide (b.updatedAt ≤ a.updatedAt)) l

/-- results.flat() followed by the descending sort: one aggregated
collection per fetch cycle. -/
def fetchDataCombine (results : List (List UnifiedPullRequest)) : List UnifiedPullRequest :=
  sortByUpdatedDesc results.flatten

/-! ## Concrete fixtures used by witnesses and counterexamples -/

/-- A unified entity with the classifier-relevant fields set and neutral
values elsewhere. -/
def testPR (uniqueKey : String) (updatedAt : Int) (isAuthor isReviewer : Bool)
    (my overall : ReviewState) (pipe : PipelineStatus) (given required : Nat) : UnifiedPullRequest :=
  { id := uniqueKey
    uniqueKey := uniqueKey
    title := ""
    url := ""
    source := .github
    repoName := ""
    updatedAt := updatedAt
    author := { name := "", avatarUrl := "", username := "" }
    reviewers := []
    pipelineStatus := pipe
    commentStats := { resolved := 0, total := 0 }
    approvals := { given := given, required := required }
    changes := { files := 0, additions := 0, deletions := 0 }
    isAuthor := isAuthor
    isReviewer := isReviewer
    myReviewState := my
    overallReviewState := overall }

/-- An empty raw GitLab MR to be overridden per fixture. -/
def glMRZero : GlMR :=
  { iid := ""
    title := ""
    webUrl := ""
    updatedAt := 0
    projectName := ""
    projectPath := ""
    author := none
    reviewers := none
    headPipeline := none
    approvedBy := none
    approvalsRequired := none
    diffStatsSummary := none
    userNotesCount := none
    discussions := none }

/-- An empty raw GitHub PR node to be overridden per fixture. -/
def ghPRZero : GithubPR :=
  { number := 0
    title := ""
    url := ""
    updatedAt := 0
    repoName := ""
    repoOwner := ""
    author := none
    reviewRequests := none
    reviews := none
    comments := none
    commits := []
    totalCommentsCount := 0
    changedFiles := 0
    additions := 0
    deletions := 0
    reviewDecision := none }

/-- An item that is authored by the user, also lists them as a reviewer
with a pending state, and still waits for its first approval: the spec
table (author rules first) files it under Waiting for approvals, the code
(review-requested rule second) under Review requested. -/
def prC1Case : UnifiedPullRequest := testPR "c1" 0 true true .pending .pending .success 0 1

/-- A PR where bob submitted CHANGES_REQUESTED and was then re-requested
for review. -/
def prC2Case : GithubPR :=
  { ghPRZero with
    author := some { login := "alice", avatarUrl := none }
    reviewRequests := some [some { login := "bob", avatarUrl := none }]
    reviews := some [{ author := some { login := "bob", avatarUrl := none }, state := some "CHANGES_REQUESTED", submittedAt := 1 }] }

def mrC3first : GlMR := { glMRZero with iid := "7", projectPath := "app", title := "from authored" }

def mrC3second : GlMR := { glMRZero with iid := "7", projectPath := "app", title := "from review requested" }

def cuC3 : GlCurrentUser :=
  { username := "me"
    authoredNodes := some [mrC3first]
    assignedNodes := none
    reviewRequestedNodes := some [mrC3second] }

def respC3 : GitlabHttpOutcome := .payload none (some cuC3)

/-- A GitHub search payload that lists the same PR node twice. -/
def prC5dup : GithubPR :=
  { ghPRZero with number := 1, repoOwner := "octo", repoName := "app", author := some { login := "alice", avatarUrl := none } }

/-- The aggregated collection a fetch cycle produces from the duplicated
GitHub payload and an empty GitLab result. -/
def c5combinedCase : List UnifiedPullRequest :=
  match githubProcess [prC5dup, prC5dup] "me" with
  | .ok l => fetchDataCombine [l, []]
  | .error _ => []

def prC5single : GithubPR :=
  { ghPRZero with number := 2, repoOwner := "octo", repoName := "app", author := some { login := "alice", avatarUrl := none } }

def cuC5 : GlCurrentUser :=
  { username := "me", authoredNodes := none, assignedNodes := none, reviewRequestedNodes := none }

/-- An item only its author is involved in, already approved enough, so
the last guard (Your merge requests) catches it. -/
def prC6Case : UnifiedPullRequest := testPR "c6" 0 true false .pending .pending .success 1 0

def prC8early : UnifiedPullRequest := testPR "c8a" 5 true false .pending .pending .success 0 1

def prC8late : UnifiedPullRequest := testPR "c8b" 9 true false .pending .pending .success 0 1

def resultsC8 : List (List UnifiedPullRequest) := [[prC8early], [prC8late]]

/-- A GitHub node whose author is null (a deleted account). -/
def prC9NoAuthor : GithubPR := ghPRZero

/-- A GitLab MR authored by alice that also lists alice among its
reviewers nodes. -/
def mrC10Case : GlMR :=
  { glMRZero with
    iid := "9"
    projectPath := "app"
    author := some { username := "alice", name := "Alice", avatarUrl := none }
    reviewers := some [{ username := "alice", name := "Alice", avatarUrl := none, reviewState := some "UNREVIEWED" }] }

/-! ## Lemmas about the JS runtime helpers -/

theorem jsInsert_perm (le : α → α → Bool) : ∀ (l : List α) (x : α), (jsInsert le l x).Perm (x :: l)
  | [], x => by simp [jsInsert]
  | y :: ys, x => by
    unfold jsInsert
    by_cases h : le y x
    · simp only [if_pos h]
      exact ((jsInsert_perm le ys x).cons y).trans (List.Perm.swap x y ys)
    · simp only [if_neg h]
      exact List.Perm.refl _

theorem foldl_jsInsert_perm (le : α → α → Bool) : ∀ (l acc : List α), (l.foldl (jsInsert le) acc).Perm (acc ++ l)
  | [], acc => by simp
  | x :: xs, acc => by
    simp only [List.foldl_cons]
    exact (foldl_jsInsert_perm le xs (jsInsert le acc x)).trans
      ((((jsInsert_perm le acc x).append_right xs)).trans List.perm_middle.symm)

theorem jsSortBy_perm (le : α → α → Bool) (l : List α) : (jsSortBy le l).Perm l := by
  simpa [jsSortBy] using foldl_jsInsert_perm le l []

theorem pairwise_jsInsert (le : α → α → Bool)
    (htrans : ∀ a b c, le a b = true → le b c = true → le a c = true)
    (htot : ∀ a b, le a b = false → le b a = true) :
    ∀ (l : List α) (x : α), l.Pairwise (fun a b => le a b = true) →
      (jsInsert le l x).Pairwise (fun a b => le a b = true)
  | [], x, _ => by simp [jsInsert]
  | y :: ys, x, h => by
    rcases List.pairwise_cons.mp h with ⟨hy, hys⟩
    unfold jsInsert
    by_cases hxy : le y x
    · simp only [if_pos hxy]
      refine List.pairwise_cons.mpr ⟨?_, pairwise_jsInsert le htrans htot ys x hys⟩
      intro z hz
      rcases List.mem_cons.mp ((jsInsert_perm le ys x).mem_iff.mp hz) with rfl | hzys
      · exact hxy
      · exact hy z hzys
    · simp only [if_neg hxy]
      have hxy2 : le x y = true := htot y x (by simpa using hxy)
      refine List.pairwise_cons.mpr ⟨?_, h⟩
      intro z hz
      rcases List.mem_cons.mp hz with rfl | hzys
      · exact hxy2
      · exact htrans x y z hxy2 (hy z hzys)

theorem pairwise_foldl_jsInsert (le : α → α → Bool)
    (htrans : ∀ a b c, le a b = true → le b c = true → le a c = true)
    (htot : ∀ a b, le a b = false → le b a = true) :
    ∀ (l acc : List α), acc.Pairwise (fun a b => le a b = true) →
      (l.foldl (jsInsert le) acc).Pairwise (fun a b => le a b = true)
  | [], _, h => h
  | x :: xs, acc, h => by
    simp only [List.foldl_cons]
    exact pairwise_foldl_jsInsert le htrans htot xs (jsInsert le acc x)
      (pairwise_jsInsert le htrans htot acc x h)

theorem jsSortBy_pairwise (le : α → α → Bool)
    (htrans : ∀ a b c, le a b = true → le b c = true → le a c = true)
    (htot : ∀ a b, le a b = false → le b a = true) (l : List α) :
    (jsSortBy le l).Pairwise (fun a b => le a b = true) :=
  pairwise_foldl_jsInsert le htrans htot l [] (by simp)

theorem mem_jsSetAdd (l : List String) (x y : String) : y ∈ jsSetAdd l x ↔ y ∈ l ∨ y = x := by
  by_cases h : x ∈ l
  · simp only [jsSetAdd, if_pos h]
    exact ⟨Or.inl, fun hy => hy.elim id (fun e => e ▸ h)⟩
  · simp [jsSetAdd, if_neg h]

theorem mem_foldl_jsSetAdd : ∀ (xs acc : List String) (y : String),
    y ∈ xs.foldl jsSetAdd acc ↔ y ∈ acc ∨ y ∈ xs
  | [], acc, y => by simp
  | x :: xs, acc, y => by
    simp only [List.foldl_cons]
    rw [mem_foldl_jsSetAdd xs (jsSetAdd acc x) y, mem_jsSetAdd]
    simp [List.mem_cons]
    tauto

theorem mem_jsSetOfList (xs : List String) (y : String) : y ∈ jsSetOfList xs ↔ y ∈ xs := by
  simp [jsSetOfList, mem_foldl_jsSetAdd]

theorem nodup_jsSetAdd (l : List String) (x : String) (h : l.Nodup) : (jsSetAdd l x).Nodup := by
  by_cases hx : x ∈ l
  · simpa [jsSetAdd, if_pos hx] using h
  · simp only [jsSetAdd, if_neg hx]
    simpa [List.nodup_append] using ⟨h, hx⟩

theorem nodup_foldl_jsSetAdd : ∀ (xs acc : List String), acc.Nodup → (xs.foldl jsSetAdd acc).Nodup
  | [], _, h => h
  | x :: xs, acc, h => by
    simp only [List.foldl_cons]
    exact nodup_foldl_jsSetAdd xs (jsSetAdd acc x) (nodup_jsSetAdd acc x h)

theorem nodup_jsSetOfList (xs : List String) : (jsSetOfList xs).Nodup :=
  nodup_foldl_jsSetAdd xs [] (by simp)

/-! ## Lemmas about the classifier -/

theorem bucketList_empty (b : Bucket) : Sections.empty.bucketList b = [] := by
  cases b <;> rfl

theorem mem_bucketList_push (s : Sections) (b bp : Bucket) (x pr : UnifiedPullRequest) :
    pr ∈ (s.push bp x).bucketList b ↔ pr ∈ s.bucketList b ∨ (b = bp ∧ pr = x) := by
  cases b <;> cases bp <;> simp [Sections.push, Sections.bucketList]

theorem mem_foldl_sectionsStep : ∀ (data : List UnifiedPullRequest) (s : Sections)
    (pr : UnifiedPullRequest) (b : Bucket),
    pr ∈ ((data.foldl sectionsStep s).bucketList b) ↔
      pr ∈ s.bucketList b ∨ (pr ∈ data ∧ categorize pr = some b)
  | [], s, pr, b => by simp
  | x :: xs, s, pr, b => by
    simp only [List.foldl_cons]
    rw [mem_foldl_sectionsStep xs (sectionsStep s x) pr b]
    unfold sectionsStep
    cases hx : categorize x with
    | none =>
      constructor
      · rintro (h | ⟨hmem, hcat⟩)
        · exact Or.inl h
        · exact Or.inr ⟨List.mem_cons_of_mem x hmem, hcat⟩
      · rintro (h | ⟨hmem, hcat⟩)
        · exact Or.inl h
        · rcases List.mem_cons.mp hmem with rfl | hmem2
          · rw [hx] at hcat
            exact absurd hcat (by simp)
          · exact Or.inr ⟨hmem2, hcat⟩
    | some b0 =>
      rw [mem_bucketList_push]
      constructor
      · rintro ((h | ⟨rfl, rfl⟩) | ⟨hmem, hcat⟩)
        · exact Or.inl h
        · exact Or.inr ⟨List.mem_cons_self pr xs, hx⟩
        · exact Or.inr ⟨List.mem_cons_of_mem x hmem, hcat⟩
      · rintro (h | ⟨hmem, hcat⟩)
        · exact Or.inl (Or.inl h)
        · rcases List.mem_cons.mp hmem with rfl | hmem2
          · rw [hx] at hcat
            exact Or.inl (Or.inr ⟨(Option.some.inj hcat).symm, rfl⟩)
          · exact Or.inr ⟨hmem2, hcat⟩

theorem mem_sections (data : List UnifiedPullRequest) (pr : UnifiedPullRequest) (b : Bucket) :
    pr ∈ (sections data).bucketList b ↔ pr ∈ data ∧ categorize pr = some b := by
  unfold sections
  rw [mem_foldl_sectionsStep]
  simp [bucketList_empty]

theorem categorize_eq_firstMatchingRule (pr : UnifiedPullRequest) :
    categorize pr = firstMatchingRule pr := by
  unfold categorize firstMatchingRule classifierRules
  simp only [List.findSome?_cons, List.findSome?_nil]
  split_ifs <;> simp_all

theorem find?_congr_mem (p q : α → Bool) : ∀ (l : List α), (∀ x ∈ l, p x = q x) → l.find? p = l.find? q
  | [], _ => rfl
  | x :: xs, h => by
    have hx := h x (List.mem_cons_self x xs)
    simp only [List.find?_cons, hx]
    cases hq : q x
    · exact find?_congr_mem p q xs (fun y hy => h y (List.mem_cons_of_mem x hy))
    · rfl

theorem find?_map_replace_of_any (k : String) (v : α) :
    ∀ (m : List (String × α)), m.any (fun p => p.1 == k) = true →
      ((m.map (fun p => if p.1 == k then (k, v) else p)).find? (fun p => p.1 == k)) = some (k, v)
  | [], h => by simp at h
  | p :: ps, h => by
    by_cases hp : (p.1 == k) = true
    · have hk : p.1 = k := eq_of_beq hp
      simp [List.find?_cons, hk]
    · have hpf : (p.1 == k) = false := by simpa using hp
      have h2 : ps.any (fun q => q.1 == k) = true := by
        simpa [List.any_cons, hpf] using h
      rw [List.map_cons, List.find?_cons, if_neg hp]
      simp only [hpf]
      exact find?_map_replace_of_any k v ps h2

theorem find?_jsMapSet_same (m : List (String × α)) (k : String) (v : α) :
    ((jsMapSet m k v).find? (fun p => p.1 == k)) = some (k, v) := by
  unfold jsMapSet
  by_cases h : m.any (fun p => p.1 == k)
  · simp only [if_pos h]
    exact find?_map_replace_of_any k v m h
  · simp only [if_neg h]
    rw [List.find?_append]
    have hnone : m.find? (fun p => p.1 == k) = none := by
      rw [List.find?_eq_none]
      intro x hx
      exact fun hc => h (List.any_eq_true.mpr ⟨x, hx, hc⟩)
    rw [hnone]
    simp [List.find?_cons]

theorem find?_map_replace_other (k1 : String) (v : α) (k : String) (hk : (k1 == k) = false) :
    ∀ (m : List (String × α)),
      ((m.map (fun p => if p.1 == k1 then (k1, v) else p)).find? (fun p => p.1 == k))
        = m.find? (fun p => p.1 == k)
  | [] => rfl
  | p :: ps => by
    by_cases hp : (p.1 == k1) = true
    · have hpk : (p.1 == k) = false := by
        have : p.1 = k1 := by simpa using hp
        simpa [this] using hk
      simp only [List.map_cons, if_pos hp, List.find?_cons, hk, hpk]
      exact find?_map_replace_other k1 v k hk ps
    · simp only [List.map_cons, if_neg hp, List.find?_cons]
      cases hpk : (p.1 == k)
      · exact find?_map_replace_other k1 v k hk ps
      · rfl

theorem find?_jsMapSet_other (m : List (String × α)) (k1 : String) (v : α) (k : String)
    (hk : (k1 == k) = false) :
    ((jsMapSet m k1 v).find? (fun p => p.1 == k)) = m.find? (fun p => p.1 == k) := by
  unfold jsMapSet
  by_cases h : m.any (fun p => p.1 == k1)
  · simp only [if_pos h]
    exact find?_map_replace_other k1 v k hk m
  · simp only [if_neg h]
    rw [List.find?_append]
    cases hf : m.find? (fun p => p.1 == k)
    · simp [List.find?_cons, hk]
    · rfl

theorem mem_jsMapSet (m : List (String × α)) (k : String) (v : α) (p : String × α)
    (hp : p ∈ jsMapSet m k v) : p ∈ m ∨ p = (k, v) := by
  unfold jsMapSet at hp
  by_cases h : m.any (fun q => q.1 == k)
  · rw [if_pos h] at hp
    rcases List.mem_map.mp hp with ⟨q, hq, he⟩
    by_cases hqk : (q.1 == k) = true
    · rw [if_pos hqk] at he
      exact Or.inr he.symm
    · rw [if_neg hqk] at he
      exact Or.inl (he ▸ hq)
  · rw [if_neg h] at hp
    rcases List.mem_append.mp hp with h1 | h2
    · exact Or.inl h1
    · exact Or.inr (List.mem_singleton.mp h2)

theorem keys_nodup_jsMapSet (m : List (String × α)) (k : String) (v : α)
    (h : (m.map Prod.fst).Nodup) : ((jsMapSet m k v).map Prod.fst).Nodup := by
  unfold jsMapSet
  by_cases ha : m.any (fun p => p.1 == k)
  · rw [if_pos ha]
    have he : ((m.map (fun p => if p.1 == k then (k, v) else p)).map Prod.fst) = m.map Prod.fst := by
      rw [List.map_map]
      apply List.map_congr_left
      intro p _
      by_cases hpk : (p.1 == k) = true
      · simp only [Function.comp, if_pos hpk]
        exact (eq_of_beq hpk).symm
      · simp only [Function.comp, if_neg hpk]
    rw [he]
    exact h
  · rw [if_neg ha, List.map_append]
    rw [List.nodup_append]
    refine ⟨h, by simp, ?_⟩
    intro x hx hx2
    rcases List.mem_map.mp hx with ⟨p, hp, he⟩
    have : x = k := by simpa using hx2
    subst this
    exact absurd (List.any_eq_true.mpr ⟨p, hp, by simp [he]⟩) ha

/-- The fold that builds a JS Map keyed by keyOf: its final lookup at a
key is the last scanned element with that key, else the lookup in the
starting map. -/
theorem foldl_jsMapSet_find? (keyOf : α → String) :
    ∀ (l : List α) (m : List (String × α)) (k : String),
      ((l.foldl (fun m x => jsMapSet m (keyOf x) x) m).find? (fun p => p.1 == k))
        = match l.reverse.find? (fun x => keyOf x == k) with
          | some x => some (k, x)
          | none => m.find? (fun p => p.1 == k)
  | [], m, k => by simp
  | x :: xs, m, k => by
    simp only [List.foldl_cons, List.reverse_cons]
    rw [foldl_jsMapSet_find? keyOf xs _ k, List.find?_append]
    cases hf : xs.reverse.find? (fun y => keyOf y == k) with
    | some y => rfl
    | none =>
      simp only [Option.none_or]
      by_cases hx : (keyOf x == k) = true
      · have hxk : keyOf x = k := by simpa using hx
        simp only [List.find?_cons, hx]
        rw [← hxk]
        exact find?_jsMapSet_same m (keyOf x) x
      · simp only [List.find?_cons, hx]
        exact find?_jsMapSet_other m (keyOf x) x k (by simpa using hx)

theorem foldl_jsMapSet_keysNodup (keyOf : α → String) :
    ∀ (l : List α) (m : List (String × α)), (m.map Prod.fst).Nodup →
      (((l.foldl (fun m x => jsMapSet m (keyOf x) x) m)).map Prod.fst).Nodup
  | [], _, h => h
  | x :: xs, m, h => by
    simp only [List.foldl_cons]
    exact foldl_jsMapSet_keysNodup keyOf xs _ (keys_nodup_jsMapSet m (keyOf x) x h)

theorem foldl_jsMapSet_wellKeyed (keyOf : α → String) :
    ∀ (l : List α) (m : List (String × α)), (∀ p ∈ m, p.1 = keyOf p.2) →
      ∀ p ∈ l.foldl (fun m x => jsMapSet m (keyOf x) x) m, p.1 = keyOf p.2
  | [], _, h => h
  | x :: xs, m, h => by
    simp only [List.foldl_cons]
    refine foldl_jsMapSet_wellKeyed keyOf xs _ ?_
    intro p hp
    rcases mem_jsMapSet m (keyOf x) x p hp with h1 | h2
    · exact h p h1
    · rw [h2]

theorem foldl_jsMapSet_values (keyOf : α → String) :
    ∀ (l : List α) (m : List (String × α)) (p : String × α),
      p ∈ l.foldl (fun m x => jsMapSet m (keyOf x) x) m → p ∈ m ∨ p.2 ∈ l
  | [], _, _, hp => Or.inl hp
  | x :: xs, m, p, hp => by
    simp only [List.foldl_cons] at hp
    rcases foldl_jsMapSet_values keyOf xs _ p hp with h1 | h2
    · rcases mem_jsMapSet m (keyOf x) x p h1 with h3 | h4
      · exact Or.inl h3
      · exact Or.inr (by rw [h4]; exact List.mem_cons_self x xs)
    · exact Or.inr (List.mem_cons_of_mem x h2)

theorem countP_beq_of_nodup (k : String) :
    ∀ (l : List String), l.Nodup → l.countP (fun x => x == k) = if k ∈ l then 1 else 0
  | [], _ => by simp
  | x :: xs, h => by
    rcases List.nodup_cons.mp h with ⟨hx, hxs⟩
    rw [List.countP_cons, countP_beq_of_nodup k xs hxs]
    by_cases hxk : x = k
    · subst hxk
      simp [hx]
    · simp only [List.mem_cons]
      have h1 : ((x == k) = true) ↔ False := by simpa using hxk
      have h2 : ¬(k = x) := fun e => hxk e.symm
      by_cases hk : k ∈ xs <;> simp [hk, h1, h2]

/-! ## Lemmas about the GitLab adapter -/

theorem uniqueKey_mapGitlab (mr : GlMR) (u host : String) :
    (mapGitlabToUnified mr u host).uniqueKey = glKey mr := rfl

theorem glMrMap_eq_foldl (cu : GlCurrentUser) :
    glMrMap cu = (glScan cu).foldl (fun m mr => jsMapSet m (glKey mr) mr) [] := by
  rcases cu with ⟨u, a, b, c⟩
  cases a <;> cases b <;> cases c <;>
    simp [glMrMap, glScan, addList, List.foldl_append]

theorem glMrMap_wellKeyed (cu : GlCurrentUser) : ∀ p ∈ glMrMap cu, p.1 = glKey p.2 := by
  rw [glMrMap_eq_foldl]
  exact foldl_jsMapSet_wellKeyed glKey (glScan cu) [] (by simp)

theorem glMrMap_keysNodup (cu : GlCurrentUser) : ((glMrMap cu).map Prod.fst).Nodup := by
  rw [glMrMap_eq_foldl]
  exact foldl_jsMapSet_keysNodup glKey (glScan cu) [] (by simp)

theorem glMrMap_values (cu : GlCurrentUser) : ∀ p ∈ glMrMap cu, p.2 ∈ glScan cu := by
  intro p hp
  rw [glMrMap_eq_foldl] at hp
  rcases foldl_jsMapSet_values glKey (glScan cu) [] p hp with h0 | h1
  · exact absurd h0 (List.not_mem_nil p)
  · exact h1

theorem gitlabProcess_keys_eq (cu : GlCurrentUser) (host : String) :
    (gitlabProcess cu host).map (fun e => e.uniqueKey) = (glMrMap cu).map Prod.fst := by
  unfold gitlabProcess
  rw [List.map_map, List.map_map]
  apply List.map_congr_left
  intro p hp
  show (mapGitlabToUnified p.2 cu.username host).uniqueKey = p.1
  rw [uniqueKey_mapGitlab]
  exact (glMrMap_wellKeyed cu p hp).symm

theorem gitlabProcess_keys_nodup (cu : GlCurrentUser) (host : String) :
    ((gitlabProcess cu host).map (fun e => e.uniqueKey)).Nodup := by
  rw [gitlabProcess_keys_eq]
  exact glMrMap_keysNodup cu

theorem glMrMap_key_mem (cu : GlCurrentUser) (k : String) :
    k ∈ (glMrMap cu).map Prod.fst ↔ (glScan cu).any (fun mr => glKey mr == k) = true := by
  constructor
  · intro hk
    rcases List.mem_map.mp hk with ⟨p, hp, he⟩
    refine List.any_eq_true.mpr ⟨p.2, glMrMap_values cu p hp, ?_⟩
    rw [← glMrMap_wellKeyed cu p hp, he]
    exact beq_self_eq_true k
  · intro hany
    rcases List.any_eq_true.mp hany with ⟨mr, hmr, hbeq⟩
    have hs : ((glScan cu).reverse.find? (fun x => glKey x == k)).isSome = true :=
      List.find?_isSome.mpr ⟨mr, List.mem_reverse.mpr hmr, hbeq⟩
    rcases Option.isSome_iff_exists.mp hs with ⟨mr0, hf⟩
    have hfind := foldl_jsMapSet_find? glKey (glScan cu) [] k
    rw [hf] at hfind
    have hmem : (k, mr0) ∈ glMrMap cu := by
      rw [glMrMap_eq_foldl]
      exact List.mem_of_find?_eq_some hfind
    exact List.mem_map.mpr ⟨(k, mr0), hmem, rfl⟩

theorem countP_process_aux (u host k : String) :
    ∀ (m : List (String × GlMR)), (∀ p ∈ m, p.1 = glKey p.2) →
      (((m.map (fun p => p.2)).map (fun mr => mapGitlabToUnified mr u host)).countP (fun e => e.uniqueKey == k))
        = (m.map Prod.fst).countP (fun x => x == k)
  | [], _ => rfl
  | p :: ps, h => by
    simp only [List.map_cons, List.countP_cons]
    rw [countP_process_aux u host k ps (fun q hq => h q (List.mem_cons_of_mem p hq))]
    have he : ((mapGitlabToUnified p.2 u host).uniqueKey == k) = (p.1 == k) := by
      rw [uniqueKey_mapGitlab, h p (List.mem_cons_self p ps)]
    rw [he]

theorem find?_process_aux (u host k : String) :
    ∀ (m : List (String × GlMR)), (∀ p ∈ m, p.1 = glKey p.2) →
      (((m.map (fun p => p.2)).map (fun mr => mapGitlabToUnified mr u host)).find? (fun e => e.uniqueKey == k))
        = (m.find? (fun p => p.1 == k)).map (fun p => mapGitlabToUnified p.2 u host)
  | [], _ => rfl
  | p :: ps, h => by
    have hp := h p (List.mem_cons_self p ps)
    simp only [List.map_cons, List.find?_cons]
    have he : ((mapGitlabToUnified p.2 u host).uniqueKey == k) = (p.1 == k) := by
      rw [uniqueKey_mapGitlab, hp]
    rw [he]
    cases hpk : (p.1 == k)
    · exact find?_process_aux u host k ps (fun q hq => h q (List.mem_cons_of_mem p hq))
    · rfl

/-! ## Lemmas about the GitHub adapters -/

theorem mapGithub_ok_uniqueKey (pr : GithubPR) (u : String) (upr : UnifiedPullRequest)
    (h : mapGithubToUnified pr u = Except.ok upr) : upr.uniqueKey = ghUniqueKey pr := by
  cases hpa : pr.author with
  | none => rw [mapGithubToUnified, hpa] at h; exact absurd h (by simp)
  | some a =>
    rw [mapGithubToUnified, hpa] at h
    have := (Except.ok.injEq _ _).mp h
    rw [← this]
    rfl

theorem githubProcess_keys : ∀ (nodes : List GithubPR) (u : String) (l : List UnifiedPullRequest),
    githubProcess nodes u = Except.ok l → l.map (fun e => e.uniqueKey) = nodes.map ghUniqueKey
  | [], _, l, h => by
    have : ([] : List UnifiedPullRequest) = l := (Except.ok.injEq _ _).mp h
    rw [← this]
    rfl
  | pr :: rest, u, l, h => by
    unfold githubProcess at h
    cases hm : mapGithubToUnified pr u with
    | error msg => rw [hm] at h; exact absurd h (by simp)
    | ok e =>
      rw [hm] at h
      cases hr : githubProcess rest u with
      | error msg => rw [hr] at h; exact absurd h (by simp)
      | ok l2 =>
        rw [hr] at h
        have he : e :: l2 = l := (Except.ok.injEq _ _).mp h
        rw [← he, List.map_cons, List.map_cons,
          mapGithub_ok_uniqueKey pr u e hm, githubProcess_keys rest u l2 hr]

theorem foldl_fixed (f : β → α → β) : ∀ (l : List α) (acc : β), (∀ x ∈ l, ∀ a, f a x = a) →
    l.foldl f acc = acc
  | [], _, _ => rfl
  | x :: xs, acc, h => by
    simp only [List.foldl_cons, h x (List.mem_cons_self x xs) acc]
    exact foldl_fixed f xs acc (fun y hy a => h y (List.mem_cons_of_mem x hy) a)

theorem bindingStep_skip (login : String) (acc : Option (Option String)) (r : GhReviewNode)
    (h : ∀ a, r.author = some a → a.login = "" ∨ a.login ≠ login) :
    bindingStep login acc r = acc := by
  unfold bindingStep
  cases ha : r.author with
  | none => rfl
  | some a =>
    rcases h a ha with h1 | h2
    · simp [h1]
    · have hb : (a.login == login) = false := by simpa using h2
      by_cases hz : (a.login == "") = true
      · simp [hz]
      · simp [hz, hb]

theorem latestBinding_none_of_not_mem (pr : GithubPR) (login : String)
    (h : login ∉ ghReviewLogins pr) : ghLatestBinding pr login = none := by
  unfold ghLatestBinding
  apply foldl_fixed
  intro r hr acc
  apply bindingStep_skip
  intro a ha
  by_cases hz : a.login = ""
  · exact Or.inl hz
  · refine Or.inr (fun he => h ?_)
    unfold ghReviewLogins
    refine List.mem_filterMap.mpr ⟨r, hr, ?_⟩
    rw [ha]
    have hlz : ¬login = "" := he ▸ hz
    simp [he, hlz]

theorem mem_allLogins_of_binding (pr : GithubPR) (login : String)
    (h : ghLatestBinding pr login ≠ none) : login ∈ ghAllReviewerLogins pr := by
  have hmem : login ∈ ghReviewLogins pr := by
    by_contra hnot
    exact h (latestBinding_none_of_not_mem pr login hnot)
  unfold ghAllReviewerLogins
  rw [mem_jsSetOfList]
  simp only [List.mem_append]
  exact Or.inl (Or.inr hmem)

theorem ghMkReviewer_username (pr : GithubPR) (l : String) : (ghMkReviewer pr l).username = l := rfl

theorem find?_map_mkReviewer (pr : GithubPR) : ∀ (L : List String) (login : String), login ∈ L →
    ((L.map (ghMkReviewer pr)).find? (fun r => r.username == login)) = some (ghMkReviewer pr login)
  | [], login, h => absurd h (List.not_mem_nil login)
  | l :: ls, login, h => by
    by_cases hl : l = login
    · subst hl
      rw [List.map_cons, List.find?_cons]
      simp [ghMkReviewer_username]
    · have hne : ((ghMkReviewer pr l).username == login) = false := by
        rw [ghMkReviewer_username]
        simpa using hl
      rw [List.map_cons, List.find?_cons]
      simp only [hne]
      exact find?_map_mkReviewer pr ls login
        ((List.mem_cons.mp h).resolve_left (fun e => hl e.symm))

theorem ghMkReviewer_status_cr (pr : GithubPR) (login : String)
    (hcr : ghLatestBinding pr login = some (some "CHANGES_REQUESTED")) :
    (ghMkReviewer pr login).status
      = if (ghRequested pr).any (fun req => req.login == login) then ReviewState.pending
        else ReviewState.changes_requested := by
  have h1 : ghApproverB pr login = false := by
    simp [ghApproverB, hcr]
  have h2 : ghChangesRequestedB pr login = true := by
    simp [ghChangesRequestedB, hcr]
  simp [ghMkReviewer, h1, h2]

theorem v1_reviewerMap_keys_ne (authorLogin : String) :
    ∀ (cands : List (Option GhUser)) (m : List (String × User)),
      (∀ p ∈ m, p.1 ≠ authorLogin) →
      ∀ p ∈ cands.foldl (GithubV1.reviewerMapStep authorLogin) m, p.1 ≠ authorLogin
  | [], _, h => h
  | r :: rs, m, h => by
    simp only [List.foldl_cons]
    refine v1_reviewerMap_keys_ne authorLogin rs _ ?_
    intro p hp
    cases r with
    | none => exact h p hp
    | some usr =>
      have hstep : GithubV1.reviewerMapStep authorLogin m (some usr)
          = if usr.login != "" && usr.login != authorLogin then
              jsMapSet m usr.login
                { name := usr.login
                  avatarUrl := jsOrStr (usr.avatarUrl.getD "") ("https://github.com/" ++ usr.login ++ ".png")
                  username := usr.login }
            else m := rfl
      rw [hstep] at hp
      by_cases hg : (usr.login != "" && usr.login != authorLogin) = true
      · rw [if_pos hg] at hp
        rcases mem_jsMapSet _ _ _ p hp with h1 | h2
        · exact h p h1
        · rw [h2]
          have := (Bool.and_eq_true _ _).mp hg
          simpa using this.2
      · rw [if_neg hg] at hp
        exact h p hp

theorem any_map_general (f : α → β) (p : β → Bool) : ∀ (l : List α), (l.map f).any p = l.any (fun x => p (f x))
  | [] => rfl
  | x :: xs => by simp [List.any_cons, any_map_general f p xs]

theorem mapGitlab_isReviewer_of_node (mr : GlMR) (u host : String)
    (h : ((mr.reviewers.getD []).any (fun r => r.username == u)) = true) :
    (mapGitlabToUnified mr u host).isReviewer = true := by
  have hfield : (mapGitlabToUnified mr u host).isReviewer
      = ((mr.reviewers.getD []).map (fun r =>
          ({ name := r.name
             username := r.username
             avatarUrl := resolveAvatar host r.avatarUrl
             status := glReviewerStatus (jsSetOfList (mr.approvedBy.getD [])) r } : Reviewer))).any
        (fun r => r.username == u) := rfl
  rw [hfield, any_map_general]
  exact h

theorem discussions_fold_aux :
    ∀ (l : List GlDiscussion) (acc : Nat × Nat),
      l.foldl (fun (acc : Nat × Nat) d =>
        if d.resolvable then (acc.1 + (if d.resolved then 1 else 0), acc.2 + 1) else acc) acc
      = (acc.1 + l.countP (fun d => d.resolvable && d.resolved), acc.2 + l.countP (fun d => d.resolvable))
  | [], acc => by simp
  | d :: ds, acc => by
    simp only [List.foldl_cons, List.countP_cons]
    rw [discussions_fold_aux ds _]
    by_cases hr : d.resolvable = true
    · by_cases hd : d.resolved = true
      · simp [hr, hd, Prod.ext_iff]
        omega
      · simp [hr, hd, Prod.ext_iff]
        omega
    · simp [hr, Prod.ext_iff]

/-! ## Claim theorems -/

/-- Claim C1, counterexample: on a concrete item (author, also a pending
reviewer, zero of one required approvals) the spec table of section 4.4
assigns the bucket named Waiting for approvals, while the classifier of
App.tsx assigns the bucket titled Review requested, so the classifier does
not assign the first matching bucket of the spec priority order. -/
theorem C1_counterexample :
    specBucketName prC1Case = some "Waiting for approvals"
    ∧ (categorize prC1Case).map bucketTitle = some "Review requested"
    ∧ (categorize prC1Case).map bucketTitle ≠ specBucketName prC1Case := by
  refine ⟨rfl, rfl, ?_⟩
  decide

/-- Claim C1 as amended: the classifier fills its section lists by the
first matching rule of the six-rule priority table it implements
(Returned to you; Review requested; Approved by you; Approved by others;
Waiting for approvals; Your merge requests) and an item matching no rule
lands in no bucket; there is no Waiting-for-the-author bucket. -/
theorem C1_classifier_first_match (data : List UnifiedPullRequest) (pr : UnifiedPullRequest) (b : Bucket) :
    pr ∈ (sections data).bucketList b ↔ pr ∈ data ∧ firstMatchingRule pr = some b := by
  rw [mem_sections, categorize_eq_firstMatchingRule]

/-- Claim C2: a reviewer whose replayed latest binding state is
changes-requested is shown as pending when currently re-requested for
review and as changes-requested otherwise. -/
theorem C2_rerequest_yields_pending (pr : GithubPR) (u login : String)
    (ha : pr.author.isSome = true)
    (hcr : ghLatestBinding pr login = some (some "CHANGES_REQUESTED")) :
    ghReviewerStatus pr u login
      = some (if (ghRequested pr).any (fun req => req.login == login) then ReviewState.pending
              else ReviewState.changes_requested) := by
  rcases Option.isSome_iff_exists.mp ha with ⟨a, hA⟩
  have hmem : login ∈ ghAllReviewerLogins pr :=
    mem_allLogins_of_binding pr login (by rw [hcr]; simp)
  have hok : ghReviewerStatus pr u login
      = (((ghAllReviewerLogins pr).map (ghMkReviewer pr)).find? (fun r => r.username == login)).map
          (fun r => r.status) := by
    unfold ghReviewerStatus mapGithubToUnified
    rw [hA]
  rw [hok, find?_map_mkReviewer pr (ghAllReviewerLogins pr) login hmem]
  simp [ghMkReviewer_status_cr pr login hcr]

/-- Witness for C2: bob requested changes on the fixture PR and was then
re-requested, and the mapped reviewer entry for bob shows pending. -/
theorem C2_rerequest_witness : ghReviewerStatus prC2Case "me" "bob" = some ReviewState.pending := by
  rw [C2_rerequest_yields_pending prC2Case "me" "bob" (by decide) (by decide)]
  decide

/-- Claim C3, counterexample: the same key appears in the authored and the
review-requested lists with different titles, and the adapter emits one
entity built from the review-requested (last seen) occurrence, not from
the authored (first seen) one. -/
theorem C3_counterexample :
    glKey mrC3first = glKey mrC3second
    ∧ mrC3first.title = "from authored"
    ∧ mrC3second.title = "from review requested"
    ∧ (fetchGitlabMRs "https://gitlab.example" respC3).map (fun e => e.title)
        = ["from review requested"] := by
  refine ⟨rfl, rfl, rfl, ?_⟩
  decide

/-- Claim C3 as amended: for every key the adapter output holds exactly
one entity when the key occurs in the three scanned lists and none
otherwise, and that entity is built from the last-seen occurrence in scan
order (authored, assigned, review-requested); gitlabProcess is the
successful tail of fetchGitlabMRs. -/
theorem C3_dedup_last_seen (cu : GlCurrentUser) (baseUrl k : String) :
    ((gitlabProcess cu baseUrl).countP (fun e => e.uniqueKey == k)
        = if (glScan cu).any (fun mr => glKey mr == k) then 1 else 0)
    ∧ ((glScan cu).any (fun mr => glKey mr == k) = true →
        (gitlabProcess cu baseUrl).find? (fun e => e.uniqueKey == k)
          = ((glScan cu).reverse.find? (fun mr => glKey mr == k)).map
              (fun mr => mapGitlabToUnified mr cu.username baseUrl))
    ∧ fetchGitlabMRs baseUrl (GitlabHttpOutcome.payload none (some cu))
        = gitlabProcess cu (cleanHostOf baseUrl) := by
  refine ⟨?_, ?_, rfl⟩
  · rw [show gitlabProcess cu baseUrl
        = ((glMrMap cu).map (fun p => p.2)).map (fun mr => mapGitlabToUnified mr cu.username baseUrl)
      from rfl]
    rw [countP_process_aux cu.username baseUrl k (glMrMap cu) (glMrMap_wellKeyed cu)]
    rw [countP_beq_of_nodup k _ (glMrMap_keysNodup cu)]
    by_cases hany : (glScan cu).any (fun mr => glKey mr == k) = true
    · rw [if_pos ((glMrMap_key_mem cu k).mpr hany), if_pos hany]
    · rw [if_neg (fun h => hany ((glMrMap_key_mem cu k).mp h)), if_neg hany]
  · intro hany
    rw [show gitlabProcess cu baseUrl
        = ((glMrMap cu).map (fun p => p.2)).map (fun mr => mapGitlabToUnified mr cu.username baseUrl)
      from rfl]
    rw [find?_process_aux cu.username baseUrl k (glMrMap cu) (glMrMap_wellKeyed cu)]
    have hex : ∃ mr ∈ (glScan cu).reverse, (glKey mr == k) = true := by
      rcases List.any_eq_true.mp hany with ⟨mr, hmr, hb⟩
      exact ⟨mr, List.mem_reverse.mpr hmr, hb⟩
    rcases Option.isSome_iff_exists.mp (List.find?_isSome.mpr hex) with ⟨mr0, hf⟩
    have hfind := foldl_jsMapSet_find? glKey (glScan cu) [] k
    rw [hf] at hfind
    rw [← glMrMap_eq_foldl] at hfind
    rw [hfind, hf]
    rfl

/-- Claim C4: every modelled failure of the GitLab exchange (a thrown
fetch or JSON parse, or a GraphQL errors payload) makes fetchGitlabMRs
return the empty list; the catch block swallows the exception, so nothing
propagates. -/
theorem C4_gitlab_failures_swallowed (host : String) (resp : GitlabHttpOutcome)
    (h : gitlabFetchFailed resp = true) : fetchGitlabMRs host resp = [] := by
  cases resp with
  | thrown => rfl
  | payload errs dat =>
    cases errs with
    | none => simp [gitlabFetchFailed] at h
    | some l => rfl

/-- Witness for C4 at a thrown fetch. -/
theorem C4_failure_witness : fetchGitlabMRs "https://gitlab.com" GitlabHttpOutcome.thrown = [] :=
  C4_gitlab_failures_swallowed "https://gitlab.com" GitlabHttpOutcome.thrown rfl

/-- Claim C5, counterexample: a GitHub search payload repeating one PR
node yields an aggregated collection of two entities with the same
uniqueKey, so uniqueKey values are not unconditionally pairwise
distinct. -/
theorem C5_counterexample :
    ¬ ((c5combinedCase.map (fun e => e.uniqueKey)).Nodup) ∧ c5combinedCase.length = 2 := by
  refine ⟨?_, rfl⟩
  decide

/-- Claim C5 as amended: the GitLab side of the aggregated collection has
pairwise-distinct uniqueKey values unconditionally (the dedup map
enforces it); the GitHub side has them whenever the search payload itself
repeats no owner/repo#number key (the code does not deduplicate GitHub
nodes); and the combined sorted collection has them when additionally no
GitHub key collides with a GitLab key (the code enforces nothing across
platforms). -/
theorem C5_unique_keys (ghNodes : List GithubPR) (u : String) (ghl : List UnifiedPullRequest)
    (cu : GlCurrentUser) (host : String)
    (hok : githubProcess ghNodes u = Except.ok ghl)
    (hnd : (ghNodes.map ghUniqueKey).Nodup)
    (hdisj : ∀ pr ∈ ghNodes, ∀ mr ∈ glScan cu, ghUniqueKey pr ≠ glKey mr) :
    ((fetchDataCombine [ghl, gitlabProcess cu host]).map (fun e => e.uniqueKey)).Nodup := by
  have hperm : (fetchDataCombine [ghl, gitlabProcess cu host]).Perm (ghl ++ gitlabProcess cu host) := by
    have h := jsSortBy_perm (fun a b : UnifiedPullRequest => decide (b.updatedAt ≤ a.updatedAt))
      ([ghl, gitlabProcess cu host].flatten)
    simpa [fetchDataCombine, sortByUpdatedDesc] using h
  rw [(hperm.map (fun e => e.uniqueKey)).nodup_iff]
  rw [List.map_append, List.nodup_append]
  refine ⟨?_, gitlabProcess_keys_nodup cu host, ?_⟩
  · rw [githubProcess_keys ghNodes u ghl hok]
    exact hnd
  · intro k hk1 hk2
    rw [githubProcess_keys ghNodes u ghl hok] at hk1
    rcases List.mem_map.mp hk1 with ⟨pr, hpr, he1⟩
    rw [gitlabProcess_keys_eq] at hk2
    rcases List.mem_map.mp hk2 with ⟨p, hp, he2⟩
    have hwk := glMrMap_wellKeyed cu p hp
    have hv := glMrMap_values cu p hp
    exact hdisj pr hpr p.2 hv (he1.trans (he2.symm.trans hwk))

/-- Witness for C5 as amended at a one-node GitHub payload and an empty
GitLab response. -/
theorem C5_unique_keys_witness :
    ((fetchDataCombine [(githubProcess [prC5single] "me").toOption.getD [],
        gitlabProcess cuC5 "https://gitlab.example"]).map (fun e => e.uniqueKey)).Nodup :=
  C5_unique_keys [prC5single] "me" ((githubProcess [prC5single] "me").toOption.getD [])
    cuC5 "https://gitlab.example" (by rfl) (by decide) (by decide)

/-- Claim C6: no item ever sits in two different buckets of the sections
value, and an item found in any bucket is in exactly one. -/
theorem C6_buckets_disjoint (data : List UnifiedPullRequest) (pr : UnifiedPullRequest)
    (b₁ b₂ : Bucket)
    (h₁ : pr ∈ (sections data).bucketList b₁) (h₂ : pr ∈ (sections data).bucketList b₂) :
    b₁ = b₂ ∧ ∃! b, pr ∈ (sections data).bucketList b := by
  have e₁ := (mem_sections data pr b₁).mp h₁
  have e₂ := (mem_sections data pr b₂).mp h₂
  have hb : b₁ = b₂ := Option.some.inj (e₁.2.symm.trans e₂.2)
  refine ⟨hb, b₁, h₁, ?_⟩
  intro b hb2
  exact Option.some.inj (((mem_sections data pr b).mp hb2).2.symm.trans e₁.2)

/-- Witness for C6 at a one-item collection classified into Your merge
requests. -/
theorem C6_buckets_disjoint_witness :
    Bucket.yourPRs = Bucket.yourPRs
    ∧ ∃! b, prC6Case ∈ (sections [prC6Case]).bucketList b :=
  C6_buckets_disjoint [prC6Case] prC6Case Bucket.yourPRs Bucket.yourPRs (by decide) (by decide)

/-- Claim C7: the GitLab comment stats count exactly the resolvable
discussion threads (total) and the resolved ones among them (resolved),
and the raw userNotesCount field never influences the mapped entity. -/
theorem C7_comment_stats (mr : GlMR) (u host : String) :
    ((mapGitlabToUnified mr u host).commentStats.total
        = (mr.discussions.getD []).countP (fun d => d.resolvable))
    ∧ ((mapGitlabToUnified mr u host).commentStats.resolved
        = (mr.discussions.getD []).countP (fun d => d.resolvable && d.resolved))
    ∧ (∀ n : Option Nat, mapGitlabToUnified { mr with userNotesCount := n } u host
        = mapGitlabToUnified mr u host) := by
  refine ⟨?_, ?_, fun n => rfl⟩
  · have hfield : (mapGitlabToUnified mr u host).commentStats.total
        = ((mr.discussions.getD []).foldl (fun (acc : Nat × Nat) d =>
            if d.resolvable then (acc.1 + (if d.resolved then 1 else 0), acc.2 + 1) else acc) (0, 0)).2 := rfl
    rw [hfield, discussions_fold_aux]
    simp
  · have hfield : (mapGitlabToUnified mr u host).commentStats.resolved
        = ((mr.discussions.getD []).foldl (fun (acc : Nat × Nat) d =>
            if d.resolvable then (acc.1 + (if d.resolved then 1 else 0), acc.2 + 1) else acc) (0, 0)).1 := rfl
    rw [hfield, discussions_fold_aux]
    simp

/-- Claim C8: the aggregated collection of a fetch cycle is non-increasing
in updatedAt at every pair of positions. -/
theorem C8_sorted_desc (results : List (List UnifiedPullRequest))
    (i j : Fin (fetchDataCombine results).length) (hij : i < j) :
    ((fetchDataCombine results).get j).updatedAt ≤ ((fetchDataCombine results).get i).updatedAt := by
  have htrans : ∀ a b c : UnifiedPullRequest,
      (decide (b.updatedAt ≤ a.updatedAt)) = true → (decide (c.updatedAt ≤ b.updatedAt)) = true →
      (decide (c.updatedAt ≤ a.updatedAt)) = true := by
    intro a b c hab hbc
    rw [decide_eq_true_iff] at hab hbc ⊢
    exact le_trans hbc hab
  have htot : ∀ a b : UnifiedPullRequest,
      (decide (b.updatedAt ≤ a.updatedAt)) = false → (decide (a.updatedAt ≤ b.updatedAt)) = true := by
    intro a b h
    rw [decide_eq_false_iff_not] at h
    rw [decide_eq_true_iff]
    exact le_of_not_le h
  have hp := jsSortBy_pairwise (fun a b : UnifiedPullRequest => decide (b.updatedAt ≤ a.updatedAt))
    htrans htot results.flatten
  have hp2 : (fetchDataCombine results).Pairwise (fun a b => b.updatedAt ≤ a.updatedAt) := by
    refine List.Pairwise.imp ?_ hp
    intro a b hab
    exact of_decide_eq_true hab
  rw [List.pairwise_iff_get] at hp2
  exact hp2 i j hij

/-- Witness for C8 on a concrete two-adapter result. -/
theorem C8_sorted_desc_witness :
    ((fetchDataCombine resultsC8).get ⟨1, by decide⟩).updatedAt
      ≤ ((fetchDataCombine resultsC8).get ⟨0, by decide⟩).updatedAt :=
  C8_sorted_desc resultsC8 ⟨0, by decide⟩ ⟨1, by decide⟩ (by decide)

/-- Claim C9, counterexample: the GitHub mapper reads author.login without
a guard, so a payload whose author is absent makes the mapping fail
instead of defaulting the field. -/
theorem C9_counterexample :
    mapGithubToUnified prC9NoAuthor "me" = Except.error "TypeError: cannot read login of null"
    ∧ prC9NoAuthor.author = none :=
  ⟨rfl, rfl⟩

/-- Claim C9 as amended: the GitLab mapper defaults every absent optional
field it reads (author, reviewer nodes, discussions), while the GitHub
mapper defaults its optional node lists but requires the author to be
present: with an author it always succeeds, without one it always
throws. -/
theorem C9_optional_field_defaults :
    (∀ (pr : GithubPR) (u : String), pr.author.isSome = true →
        (mapGithubToUnified pr u).isOk = true)
    ∧ (∀ (mr : GlMR) (u host : String), mr.author = none →
        (mapGitlabToUnified mr u host).author
          = { name := "Unknown", avatarUrl := "", username := "unknown" })
    ∧ (∀ (mr : GlMR) (u host : String), mr.reviewers = none →
        (mapGitlabToUnified mr u host).reviewers = [])
    ∧ (∀ (mr : GlMR) (u host : String), mr.discussions = none →
        (mapGitlabToUnified mr u host).commentStats = { resolved := 0, total := 0 })
    ∧ (∀ (pr : GithubPR) (u : String), pr.author = none →
        mapGithubToUnified pr u = Except.error "TypeError: cannot read login of null") := by
  refine ⟨?_, ?_, ?_, ?_, ?_⟩
  · intro pr u h
    rcases Option.isSome_iff_exists.mp h with ⟨a, hA⟩
    unfold mapGithubToUnified
    rw [hA]
    rfl
  · intro mr u host h
    have hfield : (mapGitlabToUnified mr u host).author
        = { name := jsOrStr (match mr.author with | some a => a.name | none => "") "Unknown"
            username := jsOrStr (match mr.author with | some a => a.username | none => "") "unknown"
            avatarUrl := resolveAvatar host (mr.author.bind (fun a => a.avatarUrl)) } := rfl
    rw [hfield, h]
    rfl
  · intro mr u host h
    have hfield : (mapGitlabToUnified mr u host).reviewers
        = (mr.reviewers.getD []).map (fun r =>
            ({ name := r.name
               username := r.username
               avatarUrl := resolveAvatar host r.avatarUrl
               status := glReviewerStatus (jsSetOfList (mr.approvedBy.getD [])) r } : Reviewer)) := rfl
    rw [hfield, h]
    rfl
  · intro mr u host h
    have hfield : (mapGitlabToUnified mr u host).commentStats
        = { total := ((mr.discussions.getD []).foldl (fun (acc : Nat × Nat) d =>
              if d.resolvable then (acc.1 + (if d.resolved then 1 else 0), acc.2 + 1) else acc) (0, 0)).2
            resolved := ((mr.discussions.getD []).foldl (fun (acc : Nat × Nat) d =>
              if d.resolvable then (acc.1 + (if d.resolved then 1 else 0), acc.2 + 1) else acc) (0, 0)).1 } := rfl
    rw [hfield, h]
    rfl
  · intro pr u h
    unfold mapGithubToUnified
    rw [h]

/-- Claim C10, counterexample: the fixture MR is authored by alice who is
also a reviewer node, yet when mapped for the user bob the entity has
isAuthor false, so the claim quantified over every MR fails without the
condition that the mapping runs for the author as the current user. -/
theorem C10_counterexample :
    (mrC10Case.author.map (fun a => a.username)) = some "alice"
    ∧ ((mrC10Case.reviewers.getD []).any (fun r => r.username == "alice")) = true
    ∧ (mapGitlabToUnified mrC10Case "bob" "https://gitlab.example").isAuthor = false := by
  refine ⟨rfl, ?_, ?_⟩ <;> decide

/-- Claim C10 as amended: when the current user is the MR author and the
author appears among the reviewers nodes, the GitLab mapper sets both
isAuthor and isReviewer (it never removes the author from the reviewer
set), while the GitHub mapper of src/adapters/github.ts excludes the
author from its reviewer map, so no entity it produces has both flags. -/
theorem C10_author_reviewer_flags :
    (∀ (mr : GlMR) (u host : String) (a : GlUser), mr.author = some a → a.username = u →
        ((mr.reviewers.getD []).any (fun r => r.username == u)) = true →
        (mapGitlabToUnified mr u host).isAuthor = true
          ∧ (mapGitlabToUnified mr u host).isReviewer = true)
    ∧ (∀ (pr : GithubPR) (u : String) (v1 : GithubV1.UnifiedPullRequest),
        GithubV1.mapGithubToUnified pr u = Except.ok v1 →
        v1.isAuthor = true → v1.isReviewer = false) := by
  constructor
  · intro mr u host a hA hu hrev
    refine ⟨?_, mapGitlab_isReviewer_of_node mr u host hrev⟩
    have hfield : (mapGitlabToUnified mr u host).isAuthor
        = (match mr.author with | some a => a.username == u | none => false) := rfl
    rw [hfield, hA]
    simp [hu]
  · intro pr u v1 hok hA
    cases hpa : pr.author with
    | none =>
      unfold GithubV1.mapGithubToUnified at hok
      rw [hpa] at hok
      exact absurd hok (by simp)
    | some prAuthor =>
      unfold GithubV1.mapGithubToUnified at hok
      rw [hpa] at hok
      cases hrq : pr.reviewRequests with
      | none =>
        rw [hrq] at hok
        exact absurd hok (by simp)
      | some reqNodes =>
        rw [hrq] at hok
        cases hrv : pr.reviews with
        | none =>
          rw [hrv] at hok
          exact absurd hok (by simp)
        | some revNodes =>
          rw [hrv] at hok
          have hv := (Except.ok.injEq _ _).mp hok
          subst hv
          have hu : prAuthor.login = u := eq_of_beq hA
          show ((reqNodes ++ revNodes.map (fun n => n.author)).foldl
              (GithubV1.reviewerMapStep prAuthor.login) []).any (fun p => p.1 == u) = false
          rw [List.any_eq_false]
          intro p hp hbeq
          exact v1_reviewerMap_keys_ne prAuthor.login
            (reqNodes ++ revNodes.map (fun n => n.author)) [] (by simp) p hp
            ((eq_of_beq hbeq).trans hu.symm)
